import Mathlib

/-!
Verification of the `xai_sepolia` chain client of the seer repository
(`blockchain/xai_sepolia/xai_sepolia.go`), against its natural-language
specification.

The Go code is shallowly embedded: pure helper functions become Lean
functions, the adaptive log-fetch loop becomes a step function plus a
fuel-indexed loop, the concurrent block fetcher becomes a small-step
interleaving model, and the label decoders become monadic folds over
oracle functions standing for the external libraries (base64, protobuf,
ABI, JSON).  Machine integers (`*big.Int`, `uint64`) are modelled as
`Int` / `Nat`; strings in the claims are ASCII so Go's byte-oriented
`len`/slicing coincides with character counts.
-/

namespace Seer

/-! ## Hex codec (`toHex`, `fromHex` of xai_sepolia.go)

`toHex` embeds `fmt.Sprintf("0x%x", number)`: the prefix `0x` followed by
the lowercase hexadecimal digits of the number in natural (unpadded)
representation; a negative `big.Int` prints its sign between the prefix
and the digits (`0x-1a`).

`fromHex` embeds

    number := new(big.Int); number.SetString(hex, 0); return number

`big.Int.SetString` with base 0 infers the base from the input: an
optional sign, then `0x`/`0X` (hex), `0b`/`0B` (binary), `0o`/`0O`
(octal), a bare leading `0` (octal), else decimal.  On malformed input
`SetString` reports failure and leaves in the receiver the value of the
digits scanned so far (the gc implementation's greedy scan); the Go code
discards the failure flag and returns the receiver regardless.
`goSetString` models the scan (value, success flag); underscore digit
separators, which base 0 also permits, are not modelled.  -/

/-- The lowercase hexadecimal digit character for `n < 16` (Go `%x`). -/
def hexDigitChar (n : Nat) : Char :=
  if n < 10 then Char.ofNat (48 + n) else Char.ofNat (87 + n)

/-- Hexadecimal digits of `n`, most significant first; `[]` for `0`.
Structural recursion on a fuel bound (`n` itself suffices) so that the
definition evaluates inside the kernel. -/
def natHexDigitsAux : Nat → Nat → List Char
  | 0, _ => []
  | _ + 1, 0 => []
  | fuel + 1, n => natHexDigitsAux fuel (n / 16) ++ [hexDigitChar (n % 16)]

/-- Hexadecimal digits of `n`, most significant first; `[]` for `0`. -/
def natHexDigits (n : Nat) : List Char :=
  natHexDigitsAux n n

/-- Hexadecimal digit list of `n` in natural representation (`['0']` for zero),
as produced by Go's `%x` verb. -/
def natHexList (n : Nat) : List Char :=
  if n = 0 then ['0'] else natHexDigits n

/-- Embeds `toHex` of xai_sepolia.go: `fmt.Sprintf("0x%x", number)`. -/
def toHex (n : Int) : String :=
  if n < 0 then String.mk ('0' :: 'x' :: '-' :: natHexList n.natAbs)
  else String.mk ('0' :: 'x' :: natHexList n.natAbs)

/-- Numeric value of a digit character under the given base (Go
`math/big` digit scan): decimal digits and letters `a`-`z`/`A`-`Z`,
accepted only when below the base. -/
def digitVal (base : Nat) (c : Char) : Option Nat :=
  let v : Option Nat :=
    if 48 ≤ c.toNat ∧ c.toNat ≤ 57 then some (c.toNat - 48)
    else if 97 ≤ c.toNat ∧ c.toNat ≤ 122 then some (c.toNat - 87)
    else if 65 ≤ c.toNat ∧ c.toNat ≤ 90 then some (c.toNat - 55)
    else none
  match v with
  | some v => if v < base then some v else none
  | none => none

/-- Greedy digit scan of Go `math/big`: consume the longest run of valid
digits, returning the accumulated value, the digit count, and the
unconsumed remainder. -/
def scanDigits (base : Nat) : Nat → Nat → List Char → Nat × Nat × List Char
  | acc, cnt, [] => (acc, cnt, [])
  | acc, cnt, c :: cs =>
    match digitVal base c with
    | some v => scanDigits base (acc * base + v) (cnt + 1) cs
    | none => (acc, cnt, c :: cs)

/-- Sign handling of `big.Int.SetString`: strips one leading `-` or `+`. -/
def splitSign : List Char → Bool × List Char
  | [] => (false, [])
  | c :: r =>
    if c = '-' then (true, r)
    else if c = '+' then (false, r)
    else (false, c :: r)

/-- Base inference of `big.Int.SetString` with base argument 0, after the
sign: returns the base, the remaining characters, and the count of
digits already consumed by the base detection (a bare leading `0` is an
octal digit in itself). -/
def inferBase : List Char → Nat × List Char × Nat
  | [] => (10, [], 0)
  | [c] => if c = '0' then (10, [], 1) else (10, [c], 0)
  | c :: d :: r =>
    if c = '0' then
      if d = 'x' ∨ d = 'X' then (16, r, 0)
      else if d = 'b' ∨ d = 'B' then (2, r, 0)
      else if d = 'o' ∨ d = 'O' then (8, r, 0)
      else (8, d :: r, 1)
    else (10, c :: d :: r, 0)

/-- Embeds `big.Int.SetString(s, 0)` (gc implementation): the scanned
value, and whether the parse succeeded (at least one digit, input fully
consumed). -/
def goSetString (s : String) : Int × Bool :=
  let sres := splitSign s.data
  let bres := inferBase sres.2
  let dres := scanDigits bres.1 0 bres.2.2 bres.2.1
  ((if sres.1 then -(dres.1 : Int) else (dres.1 : Int)),
   (dres.2.1 != 0) && dres.2.2.isEmpty)

/-- Embeds `fromHex` of xai_sepolia.go: `SetString`'s success flag is
discarded and the receiver is returned as-is. -/
def fromHex (s : String) : Int :=
  (goSetString s).1

/-! ## Adaptive log range fetch (`ClientFilterLogs` of xai_sepolia.go)

The loop body of `ClientFilterLogs` becomes a step function on a state
`(fromBlock, batchStep, logs)`; the surrounding `for` loop becomes a
fuel-indexed iteration (`none` = fuel exhausted, which the Go loop does
not have; every claim supplies enough fuel).  The RPC call is an oracle
`Int → Int → Except String (List LogEntry)`.  `big.Int.Div` by the
positive constant 2 is Euclidean division, i.e. `Int.fdiv`.  Log entries
are modelled by the two fields the ordering claims speak about. -/

/-- Whether `pat` occurs at the start of the character list. -/
def listStartsWith : List Char → List Char → Bool
  | [], _ => true
  | _ :: _, [] => false
  | p :: ps, c :: cs => p == c && listStartsWith ps cs

/-- Whether `pat` occurs contiguously anywhere in the character list. -/
def listContainsSeq (pat : List Char) : List Char → Bool
  | [] => pat.isEmpty
  | c :: rest => listStartsWith pat (c :: rest) || listContainsSeq pat rest

/-- Embeds Go `strings.Contains(s, pat)`. -/
def strContains (s pat : String) : Bool :=
  listContainsSeq pat.data s.data

/-- The server message recognized by the adaptive fetcher. -/
def tooManyMsg : String :=
  "query returned more than 10000 results"

/-- Embeds the error test of `ClientFilterLogs`:
`strings.Contains(err.Error(), "query returned more than 10000 results")`. -/
def containsTooMany (e : String) : Bool :=
  strContains e tooManyMsg

/-- An event log as the fetch/ordering claims see it: its block number
and its log index (the remaining `EventJson` fields are opaque to
`ClientFilterLogs`). -/
structure LogEntry where
  blockNumber : Int
  logIndex : Nat
deriving DecidableEq, Repr

/-- The mutable state of the `ClientFilterLogs` loop. -/
structure FilterState where
  fromBlock : Int
  batchStep : Int
  logs : List LogEntry
deriving DecidableEq, Repr

/-- Outcome of one iteration of the `ClientFilterLogs` loop. -/
inductive FilterStepOut where
  | next (s : FilterState)
  | done (logs : List LogEntry)
  | fail (e : String)
deriving DecidableEq, Repr

/-- `nextBlock := fromBlock + batchStep`, clamped to `toBlock`. -/
def nextBlockOf (toBlock fromBlock batchStep : Int) : Int :=
  if fromBlock + batchStep > toBlock then toBlock else fromBlock + batchStep

/-- One iteration of the `ClientFilterLogs` loop body. -/
def filterLogsStep (rpc : Int → Int → Except String (List LogEntry))
    (toBlock : Int) (s : FilterState) : FilterStepOut :=
  let nextBlock := nextBlockOf toBlock s.fromBlock s.batchStep
  match rpc s.fromBlock nextBlock with
  | .error e =>
    if containsTooMany e then
      let step2 := s.batchStep.fdiv 2
      if step2 < 1 then
        let from2 := nextBlock + 1
        if from2 > toBlock then .done s.logs
        else .next ⟨from2, step2, s.logs⟩
      else .next ⟨s.fromBlock, step2, s.logs⟩
    else .fail e
  | .ok result =>
    let logs2 := s.logs ++ result
    let from2 := nextBlock + 1
    if from2 > toBlock then .done logs2
    else .next ⟨from2, s.batchStep, logs2⟩

/-- The `ClientFilterLogs` loop, iterated on fuel. -/
def clientFilterLogsGo (rpc : Int → Int → Except String (List LogEntry))
    (toBlock : Int) : Nat → FilterState → Option (Except String (List LogEntry))
  | 0, _ => none
  | fuel + 1, s =>
    match filterLogsStep rpc toBlock s with
    | .done ls => some (.ok ls)
    | .fail e => some (.error e)
    | .next s2 => clientFilterLogsGo rpc toBlock fuel s2

/-- Embeds `ClientFilterLogs`: initial cursor `fromBlock`, initial
`batchStep = toBlock - fromBlock`, empty log accumulator. -/
def clientFilterLogs (rpc : Int → Int → Except String (List LogEntry))
    (fromBlock toBlock : Int) (fuel : Nat) : Option (Except String (List LogEntry)) :=
  clientFilterLogsGo rpc toBlock fuel ⟨fromBlock, toBlock - fromBlock, []⟩

/-- The block numbers of the inclusive range `[a, b]`, ascending. -/
def blockSeq (a b : Int) : List Int :=
  (List.range (b + 1 - a).toNat).map (fun i : Nat => a + (i : Int))

/-- All logs of the blocks in `[a, b]`, blocks ascending, each block's
logs in their per-block order. -/
def logsRange (bl : Int → List LogEntry) (a b : Int) : List LogEntry :=
  (blockSeq a b).flatMap bl

/-- The mock endpoint of claim C3: a `get_logs` server that answers a
window of at most `K` blocks with exactly that window's logs, and any
wider window with the too-many-results error. -/
def mkRpc (K : Nat) (bl : Int → List LogEntry) (f t : Int) :
    Except String (List LogEntry) :=
  if t - f + 1 ≤ (K : Int) then .ok (logsRange bl f t) else .error tooManyMsg

instance : DecidableEq (Except String (List LogEntry)) := fun x y =>
  match x, y with
  | .error a, .error b => decidable_of_iff (a = b)
      ⟨fun h => by rw [h], fun h => by cases h; rfl⟩
  | .ok a, .ok b => decidable_of_iff (a = b)
      ⟨fun h => by rw [h], fun h => by cases h; rfl⟩
  | .error _, .ok _ => isFalse (by intro h; cases h)
  | .ok _, .error _ => isFalse (by intro h; cases h)

/-- Ascending `(block number, log index)` order on log entries. -/
def logLt (x y : LogEntry) : Prop :=
  x.blockNumber < y.blockNumber ∨
    (x.blockNumber = y.blockNumber ∧ x.logIndex < y.logIndex)

/-! ## Data model: normalized records and secondary index rows

The chain-specific binary records (`XaiSepoliaTransaction`,
`XaiSepoliaEventLog`) carry the fields of the protobuf messages used by
xai_sepolia.go, with `uint64` as `Nat` and strings as `String`.  The
index/label row types (`indexer.TransactionIndex`, `indexer.LogIndex`,
`indexer.BlockCache`, `indexer.EventLabel`, `indexer.TransactionLabel`)
are declared in the `indexer` package, whose struct declarations are not
under src/; their field lists are modelled from the spec (section 3,
"Secondary index rows") and from the field names used at the
construction sites in xai_sepolia.go. -/

/-- One access-list entry of a transaction. -/
structure TxAccessList where
  address : String
  storageKeys : List String
deriving DecidableEq, Repr

/-- The chain-specific binary transaction record. -/
structure XaiSepoliaTransaction where
  hash : String
  blockNumber : Nat
  blockHash : String
  fromAddress : String
  toAddress : String
  gas : String
  gasPrice : String
  maxFeePerGas : String
  maxPriorityFeePerGas : String
  input : String
  nonce : String
  transactionIndex : Nat
  transactionType : Nat
  value : String
  indexedAt : Nat
  blockTimestamp : Nat
  chainId : String
  v : String
  r : String
  s : String
  accessList : List TxAccessList
  yParity : String
deriving DecidableEq, Repr

/-- The chain-specific binary event-log record. -/
structure XaiSepoliaEventLog where
  address : String
  topics : List String
  data : String
  blockNumber : Nat
  transactionHash : String
  logIndex : Nat
  blockHash : String
  removed : Bool
deriving DecidableEq, Repr

/-- Modelled from the spec: `indexer.BlockCache`, the per-batch sidecar
`block number → (block number, block hash, block timestamp)`. -/
structure BlockCache where
  blockNumber : Nat
  blockHash : String
  blockTimestamp : Nat
deriving DecidableEq, Repr

/-- Modelled from the spec: `indexer.TransactionIndex` (section 3), with
the fields assigned in `FetchAsProtoBlocks`. -/
structure TransactionIndex where
  blockNumber : Nat
  blockHash : String
  blockTimestamp : Nat
  fromAddress : String
  toAddress : String
  rowID : Nat
  selector : String
  transactionHash : String
  transactionIndex : Nat
  type : Nat
  path : String
deriving DecidableEq, Repr

/-- Modelled from the spec: `indexer.LogIndex` (section 3), with the
fields assigned in `FetchAsProtoEvents`; `selector`/`topic1`/`topic2`
are nullable (`*string` in Go). -/
structure LogIndex where
  address : String
  blockNumber : Nat
  blockHash : String
  blockTimestamp : Nat
  transactionHash : String
  selector : Option String
  topic1 : Option String
  topic2 : Option String
  rowID : Nat
  logIndex : Nat
  path : String
deriving DecidableEq, Repr

/-- A transaction record whose fields other than `input` are zero
values; used to instantiate theorems at concrete inputs. -/
def sampleTx (inp : String) : XaiSepoliaTransaction :=
  { hash := "", blockNumber := 0, blockHash := "", fromAddress := "",
    toAddress := "", gas := "", gasPrice := "", maxFeePerGas := "",
    maxPriorityFeePerGas := "", input := inp, nonce := "",
    transactionIndex := 0, transactionType := 0, value := "",
    indexedAt := 0, blockTimestamp := 0, chainId := "", v := "",
    r := "", s := "", accessList := [], yParity := "" }

/-- Go string slicing `s[:n]` under the claims' ASCII inputs (byte =
character); the caller guards `n ≤ len(s)`. -/
def strTake (s : String) (n : Nat) : String :=
  String.mk (s.data.take n)

/-! ## Normalizer index rows (`FetchAsProtoBlocks` / `FetchAsProtoEvents`) -/

/-- One `TransactionIndex` row of the `FetchAsProtoBlocks` loop:

    selector := "0x"
    if len(transaction.Input) > 10 { selector = transaction.Input[:10] }

(Go `len`/slicing is byte-based; the claims' inputs are ASCII.) -/
def txIndexRow (idx : Nat) (tx : XaiSepoliaTransaction) : TransactionIndex :=
  { blockNumber := tx.blockNumber
    blockHash := tx.blockHash
    blockTimestamp := tx.blockTimestamp
    fromAddress := tx.fromAddress
    toAddress := tx.toAddress
    rowID := idx
    selector := if tx.input.length > 10 then strTake tx.input 10 else "0x"
    transactionHash := tx.hash
    transactionIndex := tx.transactionIndex
    type := tx.transactionType
    path := "" }

/-- The `TransactionIndex` loop of `FetchAsProtoBlocks`, with the Go
`for index, transaction := range` counter made explicit. -/
def transactionIndexRowsFrom : Nat → List XaiSepoliaTransaction → List TransactionIndex
  | _, [] => []
  | idx, tx :: rest => txIndexRow idx tx :: transactionIndexRowsFrom (idx + 1) rest

/-- The `TransactionIndex` rows derived by `FetchAsProtoBlocks`. -/
def transactionIndexRows (txs : List XaiSepoliaTransaction) : List TransactionIndex :=
  transactionIndexRowsFrom 0 txs

/-- Go map indexing `blocksCache[bn].BlockTimestamp`: a missing key
yields the zero-value struct, hence timestamp 0. -/
def lookupTimestamp (cache : Nat → Option BlockCache) (bn : Nat) : Nat :=
  match cache bn with
  | some e => e.blockTimestamp
  | none => 0

/-- One `LogIndex` row of the `FetchAsProtoEvents` loop: `topic0` is set
only when at least one topic exists (an empty topic list is logged but
the row is still emitted), `topic1`/`topic2` when present. -/
def logIndexRow (cache : Nat → Option BlockCache) (idx : Nat)
    (ev : XaiSepoliaEventLog) : LogIndex :=
  { address := ev.address
    blockNumber := ev.blockNumber
    blockHash := ev.blockHash
    blockTimestamp := lookupTimestamp cache ev.blockNumber
    transactionHash := ev.transactionHash
    selector := if ev.topics.length = 0 then none else ev.topics.get? 0
    topic1 := if ev.topics.length > 1 then ev.topics.get? 1 else none
    topic2 := if ev.topics.length > 2 then ev.topics.get? 2 else none
    rowID := idx
    logIndex := ev.logIndex
    path := "" }

/-- The `LogIndex` loop of `FetchAsProtoEvents`, with the Go loop
counter made explicit. -/
def logIndexRowsFrom (cache : Nat → Option BlockCache) :
    Nat → List XaiSepoliaEventLog → List LogIndex
  | _, [] => []
  | idx, ev :: rest => logIndexRow cache idx ev :: logIndexRowsFrom cache (idx + 1) rest

/-- The `LogIndex` rows derived by `FetchAsProtoEvents`. -/
def logIndexRows (cache : Nat → Option BlockCache)
    (events : List XaiSepoliaEventLog) : List LogIndex :=
  logIndexRowsFrom cache 0 events

/-! ## Label decoders (`DecodeProtoEventsToLabels`,
`DecodeProtoTransactionsToLabels`)

The external libraries are oracle parameters: base64 decoding
(`encoding/base64`), protobuf unmarshalling, ABI JSON parsing
(`abi.JSON`), ABI argument decoding (`seer_common`), hex decoding
(`encoding/hex`), and JSON marshalling.  `B` stands for the byte-slice
type, `A` for the parsed-ABI type, `J` for the decoded-argument type.
The nested Go map `abiMap[address][selector][key]` is a total function
(missing keys yield zero values, i.e. `""`); `blocksCache` is a
`map[uint64]uint64` whose missing keys yield 0; `label` is the package
variable `indexer.SeerCrawlerLabel`. -/

/-- Modelled from the spec: `indexer.EventLabel` (section 3), with the
fields assigned in `DecodeProtoEventsToLabels`. -/
structure EventLabel where
  label : String
  labelName : String
  labelType : String
  blockNumber : Nat
  blockHash : String
  address : String
  transactionHash : String
  labelData : String
  blockTimestamp : Nat
  logIndex : Nat
deriving DecidableEq, Repr

/-- Modelled from the spec: `indexer.TransactionLabel` (section 3), with
the fields assigned in `DecodeProtoTransactionsToLabels`. -/
structure TransactionLabel where
  address : String
  blockNumber : Nat
  blockHash : String
  callerAddress : String
  labelName : String
  labelType : String
  originAddress : String
  label : String
  transactionHash : String
  labelData : String
  blockTimestamp : Nat
deriving DecidableEq, Repr

/-- The oracle bundle of `DecodeProtoEventsToLabels`. -/
structure EventDecodeDeps (B A J : Type) where
  b64 : String → Except String B
  unmarshal : B → Except String XaiSepoliaEventLog
  abiJSON : String → Except String A
  decodeLogArgs : A → List String → String → Except String J
  jsonMarshal : J → Except String String
  abiMap : String → String → String → String
  blocksCache : Nat → Option Nat
  label : String

/-- Embeds `DecodeProtoEventLogs`: base64-decode then proto-unmarshal
each record in order; the first failure aborts the batch. -/
def decodeProtoEventLogs {B : Type} (b64 : String → Except String B)
    (unmarshal : B → Except String XaiSepoliaEventLog) :
    List String → Except String (List XaiSepoliaEventLog)
  | [] => .ok []
  | d :: rest => do
    let bytes ← b64 d
    let ev ← unmarshal bytes
    let evs ← decodeProtoEventLogs b64 unmarshal rest
    pure (ev :: evs)

/-- The `EventLabel` row built for a non-skipped event record. -/
def mkEventLabel {B A J : Type} (deps : EventDecodeDeps B A J)
    (ev : XaiSepoliaEventLog) (t0 labelData : String) : EventLabel :=
  { label := deps.label
    labelName := deps.abiMap ev.address t0 "abi_name"
    labelType := "event"
    blockNumber := ev.blockNumber
    blockHash := ev.blockHash
    address := ev.address
    transactionHash := ev.transactionHash
    labelData := labelData
    blockTimestamp := (deps.blocksCache ev.blockNumber).getD 0
    logIndex := ev.logIndex }

/-- The per-record loop of `DecodeProtoEventsToLabels`: an event with no
topics is skipped (`continue`); an ABI-selection, ABI-decode or JSON
failure returns that error for the whole batch. -/
def eventLabelsLoop {B A J : Type} (deps : EventDecodeDeps B A J) :
    List XaiSepoliaEventLog → Except String (List EventLabel)
  | [] => .ok []
  | ev :: rest =>
    match ev.topics with
    | [] => eventLabelsLoop deps rest
    | t0 :: _ => do
      let contractAbi ← deps.abiJSON (deps.abiMap ev.address t0 "abi")
      let decodedArgs ← deps.decodeLogArgs contractAbi ev.topics ev.data
      let labelData ← deps.jsonMarshal decodedArgs
      let rest2 ← eventLabelsLoop deps rest
      pure (mkEventLabel deps ev t0 labelData :: rest2)

/-- Embeds `DecodeProtoEventsToLabels`. -/
def decodeProtoEventsToLabels {B A J : Type} (deps : EventDecodeDeps B A J)
    (events : List String) : Except String (List EventLabel) := do
  let decodedEvents ← decodeProtoEventLogs deps.b64 deps.unmarshal events
  eventLabelsLoop deps decodedEvents

/-- The outcome of one record of the loop in isolation: `ok none` means
skipped (no topics); used to characterize the loop. -/
def eventRecordOutcome {B A J : Type} (deps : EventDecodeDeps B A J)
    (ev : XaiSepoliaEventLog) : Except String (Option EventLabel) :=
  match ev.topics with
  | [] => .ok none
  | t0 :: _ => do
    let contractAbi ← deps.abiJSON (deps.abiMap ev.address t0 "abi")
    let decodedArgs ← deps.decodeLogArgs contractAbi ev.topics ev.data
    let labelData ← deps.jsonMarshal decodedArgs
    pure (some (mkEventLabel deps ev t0 labelData))

/-- Go string slicing `s[:n]` including its panic: `none` models the
out-of-range panic when `n > len(s)`. -/
def goSliceTo (s : String) (n : Nat) : Option String :=
  if n ≤ s.length then some (String.mk (s.data.take n)) else none

/-- Go string slicing `s[n:]` including its panic. -/
def goSliceFrom (s : String) (n : Nat) : Option String :=
  if n ≤ s.length then some (String.mk (s.data.drop n)) else none

/-- Result of `DecodeProtoTransactionsToLabels`: Go can return labels,
return an error, or panic on the unguarded `transaction.Input[:10]`. -/
inductive TxDecodeOutcome where
  | panicked
  | failed (e : String)
  | ok (labels : List TransactionLabel)
deriving DecidableEq, Repr

/-- The oracle bundle of `DecodeProtoTransactionsToLabels`. -/
structure TxDecodeDeps (B A J : Type) where
  b64 : String → Except String B
  unmarshal : B → Except String XaiSepoliaTransaction
  abiJSON : String → Except String A
  hexDecode : String → Except String B
  decodeTxInput : A → B → Except String J
  jsonMarshal : J → Except String String
  abiMap : String → String → String → String
  blocksCache : Nat → Option Nat
  label : String

/-- Embeds `DecodeProtoTransactions`: base64-decode then
proto-unmarshal each record in order; the first failure aborts. -/
def decodeProtoTransactions {B : Type} (b64 : String → Except String B)
    (unmarshal : B → Except String XaiSepoliaTransaction) :
    List String → Except String (List XaiSepoliaTransaction)
  | [] => .ok []
  | d :: rest => do
    let bytes ← b64 d
    let tx ← unmarshal bytes
    let txs ← decodeProtoTransactions b64 unmarshal rest
    pure (tx :: txs)

/-- The `TransactionLabel` row built for a decoded transaction. -/
def mkTxLabel {B A J : Type} (deps : TxDecodeDeps B A J)
    (tx : XaiSepoliaTransaction) (selector labelData : String) : TransactionLabel :=
  { address := tx.toAddress
    blockNumber := tx.blockNumber
    blockHash := tx.blockHash
    callerAddress := tx.fromAddress
    labelName := deps.abiMap tx.toAddress selector "abi_name"
    labelType := "tx_call"
    originAddress := tx.fromAddress
    label := deps.label
    transactionHash := tx.hash
    labelData := labelData
    blockTimestamp := (deps.blocksCache tx.blockNumber).getD 0 }

/-- The per-record loop of `DecodeProtoTransactionsToLabels`:
`selector := transaction.Input[:10]` is evaluated without a length
guard, then `transaction.Input[2:]` is hex-decoded and ABI-decoded. -/
def txLabelsLoop {B A J : Type} (deps : TxDecodeDeps B A J) :
    List XaiSepoliaTransaction → TxDecodeOutcome
  | [] => .ok []
  | tx :: rest =>
    match goSliceTo tx.input 10 with
    | none => .panicked
    | some selector =>
      match deps.abiJSON (deps.abiMap tx.toAddress selector "abi") with
      | .error e => .failed e
      | .ok contractAbi =>
        match goSliceFrom tx.input 2 with
        | none => .panicked
        | some inputTail =>
          match deps.hexDecode inputTail with
          | .error e => .failed e
          | .ok inputData =>
            match deps.decodeTxInput contractAbi inputData with
            | .error e => .failed e
            | .ok decodedArgs =>
              match deps.jsonMarshal decodedArgs with
              | .error e => .failed e
              | .ok labelData =>
                match txLabelsLoop deps rest with
                | .panicked => .panicked
                | .failed e => .failed e
                | .ok ls => .ok (mkTxLabel deps tx selector labelData :: ls)

/-- Embeds `DecodeProtoTransactionsToLabels`. -/
def decodeProtoTransactionsToLabels {B A J : Type} (deps : TxDecodeDeps B A J)
    (txs : List String) : TxDecodeOutcome :=
  match decodeProtoTransactions deps.b64 deps.unmarshal txs with
  | .error e => .failed e
  | .ok decoded => txLabelsLoop deps decoded

/-- A transaction-decode oracle bundle whose record decoder yields a
transaction with the given input; all other stages succeed trivially. -/
def constTxDeps (inp : String) : TxDecodeDeps Unit Unit Unit :=
  { b64 := fun _ => .ok ()
    unmarshal := fun _ => .ok (sampleTx inp)
    abiJSON := fun _ => .ok ()
    hexDecode := fun _ => .ok ()
    decodeTxInput := fun _ _ => .ok ()
    jsonMarshal := fun _ => .ok ""
    abiMap := fun _ _ _ => ""
    blocksCache := fun _ => none
    label := "seer" }

/-! ## Concurrent block range fetch (`FetchBlocksInRangeAsync`)

A small-step interleaving model.  One goroutine is spawned per block of
the inclusive range (the `cells`, in spawn order).  Each goroutine takes
two atomic steps: (1) acquire the counting semaphore and issue the
`GetBlockByNumber` call — enabled only while fewer than `maxRequests`
permits are held; (2) the call returns — on success append the block to
the mutex-protected slice and release the permit, on failure perform
the non-blocking send into the 1-buffered error channel and return
WITHOUT releasing the permit (the Go error path skips `<-sem`).
Between the two steps the transport call is in flight.  A schedule is a
list of cell indices; `asyncRun` answers `none` when the schedule picks
a disabled or finished cell.  `errLog` is a ghost field recording every
error in channel-serialization order; `errSlot` is the channel slot:
the non-blocking send keeps the first value and drops the rest.  After
`wg.Wait()` (a state where every cell is done) the function returns
`(nil, err)` when the slot holds an error, else `(blocks, nil)` —
`asyncResult`.  The block payload type is the parameter `β`. -/

inductive TaskPhase where
  | idle
  | calling
  | done
deriving DecidableEq, Repr

/-- Interleaving state of `FetchBlocksInRangeAsync`. -/
structure AsyncState (β : Type) where
  cells : List (Int × TaskPhase)
  permits : Nat
  errSlot : Option String
  errLog : List String
  blocks : List β
deriving DecidableEq, Repr

/-- All goroutines spawned, none scheduled yet. -/
def asyncInit {β : Type} (tasks : List Int) : AsyncState β :=
  { cells := tasks.map (fun t => (t, TaskPhase.idle))
    permits := 0
    errSlot := none
    errLog := []
    blocks := [] }

/-- One atomic step of goroutine `i`. -/
def asyncStep {β : Type} (oracle : Int → Except String β) (maxRequests : Nat)
    (s : AsyncState β) (i : Nat) : Option (AsyncState β) :=
  match s.cells.get? i with
  | none => none
  | some (t, ph) =>
    match ph with
    | TaskPhase.idle =>
      if s.permits < maxRequests then
        some { s with cells := s.cells.set i (t, TaskPhase.calling),
                      permits := s.permits + 1 }
      else none
    | TaskPhase.calling =>
      match oracle t with
      | .ok blk =>
        some { s with cells := s.cells.set i (t, TaskPhase.done),
                      blocks := s.blocks ++ [blk],
                      permits := s.permits - 1 }
      | .error e =>
        some { s with cells := s.cells.set i (t, TaskPhase.done),
                      errSlot := match s.errSlot with
                                 | some e0 => some e0
                                 | none => some e,
                      errLog := s.errLog ++ [e] }
    | TaskPhase.done => none

/-- Run a schedule. -/
def asyncRun {β : Type} (oracle : Int → Except String β) (maxRequests : Nat) :
    List Nat → AsyncState β → Option (AsyncState β)
  | [], s => some s
  | i :: rest, s =>
    match asyncStep oracle maxRequests s i with
    | none => none
    | some s2 => asyncRun oracle maxRequests rest s2

/-- Number of transport calls in flight. -/
def inFlight {β : Type} (s : AsyncState β) : Nat :=
  s.cells.countP (fun c => c.2 == TaskPhase.calling)

/-- Every goroutine has settled (`wg.Wait()` has returned). -/
def allDone {β : Type} (s : AsyncState β) : Prop :=
  ∀ c ∈ s.cells, c.2 = TaskPhase.done

/-- The value `FetchBlocksInRangeAsync` returns after `wg.Wait()`:
`(nil, err)` on a captured error — the accumulated blocks are
discarded — else `(blocks, nil)`. -/
def asyncResult {β : Type} (s : AsyncState β) : Except String (List β) :=
  match s.errSlot with
  | some e => .error e
  | none => .ok s.blocks

/-- The payloads of the settled cells, in cell order. -/
def donePayload {β : Type} (fetch : Int → β) (s : AsyncState β) : List β :=
  s.cells.filterMap (fun c =>
    if c.2 == TaskPhase.done then some (fetch c.1) else none)

/-- Bookkeeping invariant of the interleaving model: the held permits
are the in-flight calls plus the goroutines that failed (their permits
leak), at most `maxRequests` permits are held, and the channel slot
holds the first recorded error. -/
def asyncInv {β : Type} (maxRequests : Nat) (s : AsyncState β) : Prop :=
  inFlight s + s.errLog.length = s.permits ∧
  s.permits ≤ maxRequests ∧
  s.errSlot = s.errLog.head?

/-! ### Round-trip lemmas for the hex codec -/

theorem digitVal_hexDigitChar : ∀ v < 16, digitVal 16 (hexDigitChar v) = some v := by
  decide

theorem scanDigits_append_of_consumed (base : Nat) :
    ∀ (l₁ l₂ : List Char) (acc cnt : Nat),
      (scanDigits base acc cnt l₁).2.2 = [] →
      scanDigits base acc cnt (l₁ ++ l₂) =
        scanDigits base (scanDigits base acc cnt l₁).1 (scanDigits base acc cnt l₁).2.1 l₂ := by
  intro l₁
  induction l₁ with
  | nil => intro l₂ acc cnt _; rfl
  | cons c cs ih =>
    intro l₂ acc cnt h
    simp only [scanDigits, List.cons_append] at h ⊢
    cases hd : digitVal base c with
    | some v =>
      simp only [hd] at h ⊢
      exact ih l₂ (acc * base + v) (cnt + 1) h
    | none =>
      simp only [hd] at h
      exact (List.cons_ne_nil _ _ h).elim

theorem scanDigits_natHexDigitsAux :
    ∀ (fuel n acc cnt : Nat), n ≤ fuel →
      scanDigits 16 acc cnt (natHexDigitsAux fuel n) =
        (acc * 16 ^ (natHexDigitsAux fuel n).length + n,
         cnt + (natHexDigitsAux fuel n).length, []) := by
  intro fuel
  induction fuel with
  | zero =>
    intro n acc cnt h
    interval_cases n
    simp [natHexDigitsAux, scanDigits]
  | succ f ih =>
    intro n acc cnt h
    match n with
    | 0 => simp [natHexDigitsAux, scanDigits]
    | m + 1 =>
      have hdiv : (m + 1) / 16 ≤ f := by
        have := Nat.div_lt_self (Nat.succ_pos m) (show 1 < 16 by omega)
        omega
      have hmod : (m + 1) % 16 < 16 := Nat.mod_lt _ (by omega)
      have hdm : (m + 1) / 16 * 16 + (m + 1) % 16 = m + 1 := by
        rw [Nat.mul_comm]
        exact Nat.div_add_mod (m + 1) 16
      simp only [natHexDigitsAux]
      rw [scanDigits_append_of_consumed, ih _ acc cnt hdiv]
      · simp only [ih _ acc cnt hdiv, scanDigits, digitVal_hexDigitChar _ hmod,
          List.length_append, List.length_singleton, Prod.mk.injEq]
        refine ⟨?_, by omega, trivial⟩
        rw [Nat.pow_succ, Nat.add_mul, Nat.mul_assoc]
        omega
      · rw [ih _ acc cnt hdiv]

theorem scanDigits_natHexList (n acc cnt : Nat) :
    scanDigits 16 acc cnt (natHexList n) =
      (acc * 16 ^ (natHexList n).length + n, cnt + (natHexList n).length, []) := by
  unfold natHexList
  by_cases h : n = 0
  · subst h; simp [scanDigits, digitVal, hexDigitChar, Char.ofNat]
  · simp only [h, if_false]
    exact scanDigits_natHexDigitsAux n n acc cnt (Nat.le_refl n)

theorem splitSign_zero (l : List Char) : splitSign ('0' :: l) = (false, '0' :: l) := rfl

theorem inferBase_0x (l : List Char) : inferBase ('0' :: 'x' :: l) = (16, l, 0) := rfl

theorem inferBase_0X (l : List Char) : inferBase ('0' :: 'X' :: l) = (16, l, 0) := rfl

theorem natHexList_length_ne_zero (m : Nat) : (natHexList m).length ≠ 0 := by
  unfold natHexList
  by_cases h : m = 0
  · simp [h]
  · simp only [h, if_false]
    match m, h with
    | k + 1, _ => simp [natHexDigits, natHexDigitsAux]

/-- Parsing `0x`/`0X` followed by the natural hex digits of `m` succeeds
with value `m`. -/
theorem goSetString_hex_digits (x : Char) (hx : x = 'x' ∨ x = 'X') (m : Nat) :
    goSetString (String.mk ('0' :: x :: natHexList m)) = ((m : Int), true) := by
  have hlen := natHexList_length_ne_zero m
  rcases hx with hx | hx <;> subst hx <;>
    simp [goSetString, splitSign_zero, inferBase_0x, inferBase_0X,
      scanDigits_natHexList, hlen]

/-- The value parsed by `fromHex` from `toHex n` for nonnegative `n`. -/
theorem fromHex_toHex_of_nonneg (n : Int) (h : 0 ≤ n) : fromHex (toHex n) = n := by
  rw [toHex, if_neg (by omega), fromHex,
    goSetString_hex_digits 'x' (Or.inl rfl) n.natAbs]
  exact Int.natAbs_of_nonneg h

/-- C5: for every non-negative integer `n`, `from_hex(to_hex(n)) = n`,
where `to_hex` produces `"0x"` plus the lowercase natural hexadecimal
representation; moreover `from_hex("0x1a") = 26`, `from_hex("0x00") = 0`
and `to_hex(255) = "0xff"`. -/
theorem C5_hex_codec_round_trip :
    (∀ n : Int, 0 ≤ n → fromHex (toHex n) = n) ∧
    fromHex "0x1a" = 26 ∧ fromHex "0x00" = 0 ∧ toHex 255 = "0xff" :=
  ⟨fromHex_toHex_of_nonneg, by decide, by decide, by decide⟩

/-- Witness for C5 at the concrete input `n = 255`. -/
theorem C5_hex_codec_round_trip_witness :
    0 ≤ (255 : Int) ∧ fromHex (toHex 255) = 255 :=
  ⟨by decide, C5_hex_codec_round_trip.1 255 (by decide)⟩

/-- C4 counterexample: the claim says an input with a non-hex character
fails with a `BadHex` error rather than returning a value.  In the code
`fromHex` has no error result at all: `SetString`'s failure flag is
discarded.  On `"0xzz"` the parse fails yet `fromHex` returns the value
`0`; on `"0x1z"` the parse fails yet `fromHex` returns the partially
scanned value `1`. -/
theorem C4_fromHex_badhex_counterexample :
    (goSetString "0xzz").2 = false ∧ fromHex "0xzz" = 0 ∧
    (goSetString "0x1z").2 = false ∧ fromHex "0x1z" = 1 := by
  decide

/-- C4 amended: `from_hex` accepts an optional `0x`/`0X` prefix (Go
`SetString` base-0 semantics), decodes the empty input to zero, and
never fails: on an input containing an invalid character the parse
failure is ignored and the value scanned so far (zero when nothing was
scanned) is returned instead of a `BadHex` error. -/
theorem C4_fromHex_amended :
    fromHex "" = 0 ∧
    (∀ m : Nat, fromHex (String.mk ('0' :: 'x' :: natHexList m)) = m ∧
                fromHex (String.mk ('0' :: 'X' :: natHexList m)) = m) ∧
    (∀ s : String, (goSetString s).2 = false → fromHex s = (goSetString s).1) ∧
    fromHex "0xzz" = 0 ∧ fromHex "zz" = 0 ∧ fromHex "0x1z" = 1 := by
  refine ⟨by decide, ?_, fun s _ => rfl, by decide, by decide, by decide⟩
  intro m
  constructor
  · rw [fromHex, goSetString_hex_digits 'x' (Or.inl rfl) m]
  · rw [fromHex, goSetString_hex_digits 'X' (Or.inr rfl) m]

/-- Witness for C4 (amended) at the concrete inputs `m = 26` and
`s = "0xzz"`. -/
theorem C4_fromHex_amended_witness :
    fromHex (String.mk ('0' :: 'X' :: natHexList 26)) = 26 ∧
    ((goSetString "0xzz").2 = false ∧ fromHex "0xzz" = (goSetString "0xzz").1) :=
  ⟨(C4_fromHex_amended.2.1 26).2,
   by decide, C4_fromHex_amended.2.2.1 "0xzz" (by decide)⟩

/-! ### Integer halving facts -/

theorem int_fdiv_two_le_self (a : Int) (h : 0 ≤ a) : a.fdiv 2 ≤ a := by
  obtain ⟨m, rfl⟩ : ∃ m : Nat, a = (m : Int) := ⟨a.toNat, (Int.toNat_of_nonneg h).symm⟩
  rw [show ((2:Int)) = ((2:Nat):Int) from rfl, ← Int.ofNat_fdiv]
  exact_mod_cast Nat.div_le_self m 2

theorem int_fdiv_two_bounds (a : Int) (h : 2 ≤ a) :
    1 ≤ a.fdiv 2 ∧ a.fdiv 2 ≤ a - 1 := by
  obtain ⟨m, rfl⟩ : ∃ m : Nat, a = (m : Int) :=
    ⟨a.toNat, (Int.toNat_of_nonneg (by omega)).symm⟩
  have hm : 2 ≤ m := by exact_mod_cast h
  have h1 : 1 ≤ m / 2 := (Nat.one_le_div_iff (by omega)).mpr hm
  have h2 : m / 2 < m := Nat.div_lt_self (by omega) (by omega)
  rw [show ((2:Int)) = ((2:Nat):Int) from rfl, ← Int.ofNat_fdiv]
  omega

/-- C2: in `ClientFilterLogs`, a `get_logs` failure whose message
contains "query returned more than 10000 results" halves the step; if
the halved step is below 1 the cursor jumps to `next + 1` (skipping the
offending window; the loop ends there when that jump passes `toBlock`);
the step never increases across an iteration; and a failure without
that substring ends the fetch with that error. -/
theorem C2_adaptive_narrowing (rpc : Int → Int → Except String (List LogEntry))
    (toBlock : Int) (s : FilterState) :
    (∀ e, rpc s.fromBlock (nextBlockOf toBlock s.fromBlock s.batchStep) = .error e →
      containsTooMany e = true →
        ((1 ≤ s.batchStep.fdiv 2 →
            filterLogsStep rpc toBlock s =
              .next ⟨s.fromBlock, s.batchStep.fdiv 2, s.logs⟩) ∧
         (s.batchStep.fdiv 2 < 1 →
            (nextBlockOf toBlock s.fromBlock s.batchStep + 1 ≤ toBlock →
               filterLogsStep rpc toBlock s =
                 .next ⟨nextBlockOf toBlock s.fromBlock s.batchStep + 1,
                        s.batchStep.fdiv 2, s.logs⟩) ∧
            (toBlock < nextBlockOf toBlock s.fromBlock s.batchStep + 1 →
               filterLogsStep rpc toBlock s = .done s.logs)))) ∧
    (∀ e, rpc s.fromBlock (nextBlockOf toBlock s.fromBlock s.batchStep) = .error e →
      containsTooMany e = false → filterLogsStep rpc toBlock s = .fail e) ∧
    (∀ s2, 0 ≤ s.batchStep → filterLogsStep rpc toBlock s = .next s2 →
      s2.batchStep ≤ s.batchStep) ∧
    (∀ fuel e, filterLogsStep rpc toBlock s = .fail e →
      clientFilterLogsGo rpc toBlock (fuel + 1) s = some (.error e)) := by
  refine ⟨?_, ?_, ?_, ?_⟩
  · intro e hrpc htoo
    refine ⟨?_, fun hlt => ⟨?_, ?_⟩⟩
    · intro hge
      simp only [filterLogsStep, hrpc, htoo, if_true]
      rw [if_neg (by omega)]
    · intro hle
      simp only [filterLogsStep, hrpc, htoo, if_true]
      rw [if_pos hlt, if_neg (by omega)]
    · intro hgt
      simp only [filterLogsStep, hrpc, htoo, if_true]
      rw [if_pos hlt, if_pos (by omega)]
  · intro e hrpc htoo
    simp only [filterLogsStep, hrpc, htoo]
    rfl
  · intro s2 hnn hstep
    have hhalf := int_fdiv_two_le_self s.batchStep hnn
    simp only [filterLogsStep] at hstep
    cases hrpc : rpc s.fromBlock (nextBlockOf toBlock s.fromBlock s.batchStep) with
    | error e =>
      simp only [hrpc] at hstep
      by_cases htoo : containsTooMany e = true
      · simp only [htoo, if_true] at hstep
        by_cases hlt : s.batchStep.fdiv 2 < 1
        · rw [if_pos hlt] at hstep
          by_cases hgt : nextBlockOf toBlock s.fromBlock s.batchStep + 1 > toBlock
          · rw [if_pos hgt] at hstep; exact absurd hstep (by simp)
          · rw [if_neg hgt] at hstep
            cases hstep
            simpa using hhalf
        · rw [if_neg hlt] at hstep
          cases hstep
          simpa using hhalf
      · simp only [htoo] at hstep
        simp at hstep
    | ok result =>
      simp only [hrpc] at hstep
      by_cases hgt : nextBlockOf toBlock s.fromBlock s.batchStep + 1 > toBlock
      · rw [if_pos hgt] at hstep; exact absurd hstep (by simp)
      · rw [if_neg hgt] at hstep
        cases hstep
        exact le_refl _
  · intro fuel e hstep
    simp only [clientFilterLogsGo, hstep]

/-- Witness for C2: a server that always answers with the
too-many-results message, `toBlock = 10`, state `(0, 4, [])`: the step
halves from 4 to 2 and the cursor stays. -/
theorem C2_adaptive_narrowing_witness :
    containsTooMany tooManyMsg = true ∧
    filterLogsStep (fun _ _ => Except.error tooManyMsg) 10 ⟨0, 4, []⟩ =
      .next ⟨0, 2, []⟩ := by
  refine ⟨by decide, ?_⟩
  have h := ((C2_adaptive_narrowing (fun _ _ => Except.error tooManyMsg) 10
    ⟨0, 4, []⟩).1 tooManyMsg rfl (by decide)).1 (by decide)
  simpa using h

/-! ### Range and ordering lemmas for the adaptive fetch -/

theorem blockSeq_append (a m b : Int) (h1 : a ≤ m + 1) (h2 : m ≤ b) :
    blockSeq a m ++ blockSeq (m + 1) b = blockSeq a b := by
  unfold blockSeq
  have hn : (b + 1 - a).toNat = (m + 1 - a).toNat + (b - m).toNat := by omega
  rw [hn, List.range_add, List.map_append, List.map_map,
    show (b + 1 - (m + 1)).toNat = (b - m).toNat by omega]
  congr 1
  apply List.map_congr_left
  intro i _
  simp only [Function.comp_apply]
  have hc : ((m + 1 - a).toNat : Int) = m + 1 - a := Int.toNat_of_nonneg (by omega)
  push_cast
  omega

theorem logsRange_append (bl : Int → List LogEntry) (a m b : Int)
    (h1 : a ≤ m + 1) (h2 : m ≤ b) :
    logsRange bl a m ++ logsRange bl (m + 1) b = logsRange bl a b := by
  unfold logsRange
  rw [← List.flatMap_append, blockSeq_append a m b h1 h2]

theorem logsRange_of_lt (bl : Int → List LogEntry) (a b : Int) (h : b < a) :
    logsRange bl a b = [] := by
  unfold logsRange blockSeq
  rw [show (b + 1 - a).toNat = 0 by omega]
  rfl

theorem containsTooMany_tooManyMsg : containsTooMany tooManyMsg = true := by
  decide

/-- Main induction for claim C3 (amended): with a server that accepts
windows of at most `K ≥ 2` blocks, from any loop state whose
accumulator holds exactly the logs below the cursor, enough fuel
produces exactly the logs of `[a, b]`. -/
theorem clientFilterLogsGo_mkRpc_complete (K : Nat) (bl : Int → List LogEntry)
    (a b : Int) (hK : 2 ≤ K) :
    ∀ (fuel : Nat) (c s : Int) (acc : List LogEntry),
      a ≤ c → c ≤ b → 0 ≤ s → acc = logsRange bl a (c - 1) →
      (b - c).toNat + s.toNat + 1 ≤ fuel →
      clientFilterLogsGo (mkRpc K bl) b fuel ⟨c, s, acc⟩ =
        some (.ok (logsRange bl a b)) := by
  intro fuel
  induction fuel with
  | zero => intro c s acc _ _ _ _ h5; omega
  | succ f ih =>
    intro c s acc h1 h2 h3 h4 h5
    have hcnb : c ≤ nextBlockOf b c s := by unfold nextBlockOf; split <;> omega
    have hnbb : nextBlockOf b c s ≤ b := by unfold nextBlockOf; split <;> omega
    have hnbcs : nextBlockOf b c s ≤ c + s := by unfold nextBlockOf; split <;> omega
    by_cases hle : nextBlockOf b c s - c + 1 ≤ (K : Int)
    · -- window accepted
      have hrpc : mkRpc K bl c (nextBlockOf b c s) =
          .ok (logsRange bl c (nextBlockOf b c s)) := by
        unfold mkRpc; rw [if_pos hle]
      have hacc : acc ++ logsRange bl c (nextBlockOf b c s) =
          logsRange bl a (nextBlockOf b c s) := by
        rw [h4]
        have := logsRange_append bl a (c - 1) (nextBlockOf b c s)
          (by omega) (by omega)
        rw [show c - 1 + 1 = c by omega] at this
        exact this
      by_cases hgt : nextBlockOf b c s + 1 > b
      · have hnb : nextBlockOf b c s = b := by omega
        have hstep : filterLogsStep (mkRpc K bl) b ⟨c, s, acc⟩ =
            .done (logsRange bl a b) := by
          simp only [filterLogsStep, hrpc]
          rw [if_pos hgt, hacc, hnb]
        simp only [clientFilterLogsGo, hstep]
      · have hstep : filterLogsStep (mkRpc K bl) b ⟨c, s, acc⟩ =
            .next ⟨nextBlockOf b c s + 1, s, logsRange bl a (nextBlockOf b c s)⟩ := by
          simp only [filterLogsStep, hrpc]
          rw [if_neg hgt, hacc]
        simp only [clientFilterLogsGo, hstep]
        exact ih (nextBlockOf b c s + 1) s _ (by omega) (by omega) h3
          (by rw [show nextBlockOf b c s + 1 - 1 = nextBlockOf b c s by omega])
          (by omega)
    · -- window rejected: the step halves and stays at least 1
      have hs2 : 2 ≤ s := by omega
      have hb2 := int_fdiv_two_bounds s hs2
      have hrpc : mkRpc K bl c (nextBlockOf b c s) = .error tooManyMsg := by
        unfold mkRpc; rw [if_neg hle]
      have hstep : filterLogsStep (mkRpc K bl) b ⟨c, s, acc⟩ =
          .next ⟨c, s.fdiv 2, acc⟩ := by
        simp only [filterLogsStep, hrpc, containsTooMany_tooManyMsg, if_true]
        rw [if_neg (by omega)]
      simp only [clientFilterLogsGo, hstep]
      exact ih c (s.fdiv 2) acc h1 h2 (by omega) h4 (by omega)

/-- C3 counterexample: with `K = 1` (allowed by the claim, which asks
only `K ≥ 1`) and the range `[0, 1]`, the first window `[0, 1]` is
rejected, the step halves from 1 to 0, and the skip branch jumps the
cursor past `toBlock`: the fetch terminates with NO logs at all, not
with the logs of blocks 0 and 1. -/
theorem C3_adaptive_fetch_counterexample :
    clientFilterLogs (mkRpc 1 (fun bn => [⟨bn, 0⟩])) 0 1 5 = some (.ok []) ∧
    logsRange (fun bn => [⟨bn, 0⟩]) 0 1 = [⟨0, 0⟩, ⟨1, 0⟩] ∧
    ([] : List LogEntry) ≠ [⟨0, 0⟩, ⟨1, 0⟩] := by
  refine ⟨by decide, by decide, by decide⟩

/-- C3 amended: the claim holds for `K ≥ 2` (for `K = 1` the skip
branch loses blocks, see the counterexample): the fetch terminates and
returns exactly the logs of `[a, b]`, without duplicates, ascending by
`(block number, log index)`, assuming each successful call returns its
window's logs in that order. -/
theorem logsRange_pairwise (bl : Int → List LogEntry)
    (htag : ∀ bn, ∀ l ∈ bl bn, l.blockNumber = bn)
    (hsorted : ∀ bn, (bl bn).Pairwise fun x y => x.logIndex < y.logIndex)
    (a b : Int) : (logsRange bl a b).Pairwise logLt := by
  unfold logsRange
  rw [List.pairwise_flatMap]
  constructor
  · intro bn _
    refine List.Pairwise.imp_of_mem ?_ (hsorted bn)
    intro x y hx hy hlt
    exact Or.inr ⟨(htag bn x hx).trans (htag bn y hy).symm, hlt⟩
  · have hseq : (blockSeq a b).Pairwise (· < ·) := by
      unfold blockSeq
      rw [List.pairwise_map]
      refine (List.pairwise_lt_range _).imp ?_
      intro i j hij
      omega
    refine hseq.imp_of_mem ?_
    intro b1 b2 _ _ hlt x hx y hy
    exact Or.inl (by rw [htag b1 x hx, htag b2 y hy]; exact hlt)

theorem logLt_ne {x y : LogEntry} (h : logLt x y) : x ≠ y := by
  intro heq
  subst heq
  rcases h with h | ⟨_, h⟩ <;> omega

theorem C3_adaptive_fetch_complete_amended (K : Nat) (bl : Int → List LogEntry)
    (a b : Int) (hK : 2 ≤ K) (hab : a ≤ b)
    (htag : ∀ bn, ∀ l ∈ bl bn, l.blockNumber = bn)
    (hsorted : ∀ bn, (bl bn).Pairwise fun x y => x.logIndex < y.logIndex) :
    (∃ fuel, clientFilterLogs (mkRpc K bl) a b fuel =
        some (.ok (logsRange bl a b))) ∧
    (logsRange bl a b).Pairwise logLt ∧
    (logsRange bl a b).Nodup := by
  refine ⟨⟨(b - a).toNat + (b - a).toNat + 1, ?_⟩, ?_, ?_⟩
  · unfold clientFilterLogs
    exact clientFilterLogsGo_mkRpc_complete K bl a b hK _ a (b - a) []
      (le_refl a) hab (by omega)
      ((logsRange_of_lt bl a (a - 1) (by omega)).symm) (by omega)
  · exact logsRange_pairwise bl htag hsorted a b
  · exact (logsRange_pairwise bl htag hsorted a b).imp logLt_ne

/-- Witness for C3 (amended) at `K = 2`, range `[0, 2]`, one log per
block. -/
theorem C3_adaptive_fetch_complete_amended_witness :
    (∃ fuel, clientFilterLogs (mkRpc 2 (fun bn => [⟨bn, 0⟩])) 0 2 fuel =
        some (.ok (logsRange (fun bn => [⟨bn, 0⟩]) 0 2))) ∧
    (logsRange (fun bn => [⟨bn, 0⟩]) 0 2).Pairwise logLt ∧
    (logsRange (fun bn => [⟨bn, 0⟩]) 0 2).Nodup :=
  C3_adaptive_fetch_complete_amended 2 (fun bn => [⟨bn, 0⟩]) 0 2
    (by decide) (by decide)
    (fun bn l h => by cases List.mem_singleton.mp h; rfl)
    (fun bn => List.pairwise_singleton _ _)

/-! ### Claims C1 and C6: the derived index rows -/

theorem transactionIndexRowsFrom_get? :
    ∀ (txs : List XaiSepoliaTransaction) (idx i : Nat),
      (transactionIndexRowsFrom idx txs).get? i =
        (txs.get? i).map (txIndexRow (idx + i)) := by
  intro txs
  induction txs with
  | nil => intro idx i; simp [transactionIndexRowsFrom]
  | cons tx rest ih =>
    intro idx i
    cases i with
    | zero => simp [transactionIndexRowsFrom]
    | succ j =>
      simp only [transactionIndexRowsFrom, List.get?_cons_succ]
      rw [ih (idx + 1) j, show idx + 1 + j = idx + (j + 1) by omega]

/-- C1 counterexample: the claim says an input of exactly 10 characters
yields those 10 characters as the selector, but the code's guard is the
strict `len(transaction.Input) > 10`, so the bare-selector input
`"0xa9059cbb"` (length 10) yields `"0x"`. -/
theorem C1_selector_counterexample :
    (transactionIndexRows [sampleTx "0xa9059cbb"]).map (fun r => r.selector) = ["0x"] ∧
    (if ("0xa9059cbb" : String).length < 10 then "0x"
     else strTake "0xa9059cbb" 10) = "0xa9059cbb" ∧
    ("0x" : String) ≠ "0xa9059cbb" := by
  refine ⟨by decide, by decide, by decide⟩

/-- C1 amended: `TransactionIndex.selector` equals the first 10
characters of the input when the input is strictly longer than 10
characters, and the literal `"0x"` when the input length is at most 10
(in particular for an input of exactly 10 characters). -/
theorem C1_selector_amended (txs : List XaiSepoliaTransaction) (i : Nat)
    (tx : XaiSepoliaTransaction) (h : txs.get? i = some tx) :
    ∃ row, (transactionIndexRows txs).get? i = some row ∧
      (10 < tx.input.length → row.selector = strTake tx.input 10) ∧
      (tx.input.length ≤ 10 → row.selector = "0x") := by
  refine ⟨txIndexRow i tx, ?_, ?_, ?_⟩
  · rw [transactionIndexRows, transactionIndexRowsFrom_get? txs 0 i, h]
    simp
  · intro hlen
    simp only [txIndexRow]
    rw [if_pos hlen]
  · intro hlen
    simp only [txIndexRow]
    rw [if_neg (by omega)]

/-- Witness for C1 (amended): an 12-character input keeps its first 10
characters, a 10-character input maps to `"0x"`. -/
theorem C1_selector_amended_witness :
    (∃ row, (transactionIndexRows [sampleTx "0xa9059cbb00"]).get? 0 = some row ∧
      (10 < (sampleTx "0xa9059cbb00").input.length →
        row.selector = strTake (sampleTx "0xa9059cbb00").input 10) ∧
      ((sampleTx "0xa9059cbb00").input.length ≤ 10 → row.selector = "0x")) :=
  C1_selector_amended [sampleTx "0xa9059cbb00"] 0 (sampleTx "0xa9059cbb00") rfl

theorem logIndexRowsFrom_get? (cache : Nat → Option BlockCache) :
    ∀ (events : List XaiSepoliaEventLog) (idx i : Nat),
      (logIndexRowsFrom cache idx events).get? i =
        (events.get? i).map (logIndexRow cache (idx + i)) := by
  intro events
  induction events with
  | nil => intro idx i; simp [logIndexRowsFrom]
  | cons ev rest ih =>
    intro idx i
    cases i with
    | zero => simp [logIndexRowsFrom]
    | succ j =>
      simp only [logIndexRowsFrom, List.get?_cons_succ]
      rw [ih (idx + 1) j, show idx + 1 + j = idx + (j + 1) by omega]

/-- C6: in each `LogIndex` row of `FetchAsProtoEvents`, `selector` is
`topics[0]` when at least one topic exists and null otherwise; `topic1`
and `topic2` likewise for `topics[1]`/`topics[2]`; the row's block
timestamp is the `BlockCache` entry's timestamp, a missing entry
yielding 0 (the row is still produced: the normalizer is total). -/
theorem C6_logIndex_topics_timestamp (cache : Nat → Option BlockCache)
    (events : List XaiSepoliaEventLog) (i : Nat) (ev : XaiSepoliaEventLog)
    (h : events.get? i = some ev) :
    ∃ row, (logIndexRows cache events).get? i = some row ∧
      (∀ t, ev.topics.get? 0 = some t → row.selector = some t) ∧
      (ev.topics = [] → row.selector = none) ∧
      (∀ t, ev.topics.get? 1 = some t → row.topic1 = some t) ∧
      (ev.topics.length ≤ 1 → row.topic1 = none) ∧
      (∀ t, ev.topics.get? 2 = some t → row.topic2 = some t) ∧
      (ev.topics.length ≤ 2 → row.topic2 = none) ∧
      (∀ e, cache ev.blockNumber = some e → row.blockTimestamp = e.blockTimestamp) ∧
      (cache ev.blockNumber = none → row.blockTimestamp = 0) := by
  refine ⟨logIndexRow cache i ev, ?_, ?_, ?_, ?_, ?_, ?_, ?_, ?_, ?_⟩
  · rw [logIndexRows, logIndexRowsFrom_get? cache events 0 i, h]
    simp
  · intro t ht
    have hlen : 0 < ev.topics.length := by
      rcases List.get?_eq_some.mp ht with ⟨hl, _⟩
      omega
    simp only [logIndexRow]
    rw [if_neg (by omega), ht]
  · intro hnil
    simp only [logIndexRow, hnil]
    rfl
  · intro t ht
    have hlen : 1 < ev.topics.length := by
      rcases List.get?_eq_some.mp ht with ⟨hl, _⟩
      omega
    simp only [logIndexRow]
    rw [if_pos hlen, ht]
  · intro hlen
    simp only [logIndexRow]
    rw [if_neg (by omega)]
  · intro t ht
    have hlen : 2 < ev.topics.length := by
      rcases List.get?_eq_some.mp ht with ⟨hl, _⟩
      omega
    simp only [logIndexRow]
    rw [if_pos hlen, ht]
  · intro hlen
    simp only [logIndexRow]
    rw [if_neg (by omega)]
  · intro e he
    simp only [logIndexRow, lookupTimestamp, he]
  · intro he
    simp only [logIndexRow, lookupTimestamp, he]

/-- Witness for C6: a two-topic event against an empty cache. -/
theorem C6_logIndex_topics_timestamp_witness :
    ∃ row, (logIndexRows (fun _ => none)
        [{ address := "a", topics := ["t0", "t1"], data := "", blockNumber := 7,
           transactionHash := "h", logIndex := 3, blockHash := "bh",
           removed := false }]).get? 0 = some row ∧
      (∀ t, (["t0", "t1"] : List String).get? 0 = some t → row.selector = some t) ∧
      ((["t0", "t1"] : List String) = [] → row.selector = none) ∧
      (∀ t, (["t0", "t1"] : List String).get? 1 = some t → row.topic1 = some t) ∧
      ((["t0", "t1"] : List String).length ≤ 1 → row.topic1 = none) ∧
      (∀ t, (["t0", "t1"] : List String).get? 2 = some t → row.topic2 = some t) ∧
      ((["t0", "t1"] : List String).length ≤ 2 → row.topic2 = none) ∧
      (∀ e, (fun _ => (none : Option BlockCache)) 7 = some e →
        row.blockTimestamp = e.blockTimestamp) ∧
      ((fun _ => (none : Option BlockCache)) 7 = none → row.blockTimestamp = 0) :=
  C6_logIndex_topics_timestamp (fun _ => none)
    [{ address := "a", topics := ["t0", "t1"], data := "", blockNumber := 7,
       transactionHash := "h", logIndex := 3, blockHash := "bh",
       removed := false }] 0 _ rfl

/-! ### Claims C7 and C9: the label decoders -/

theorem except_bind_ok {ε α β : Type} (a : α) (f : α → Except ε β) :
    (Except.ok a >>= f) = f a := rfl

theorem except_bind_error {ε α β : Type} (e : ε) (f : α → Except ε β) :
    ((Except.error e : Except ε α) >>= f) = Except.error e := rfl

/-- The outcome function applied where the loop succeeds: used to state
the order-preservation part of C7. -/
theorem eventLabelsLoop_ok_char {B A J : Type} (deps : EventDecodeDeps B A J) :
    ∀ (evs : List XaiSepoliaEventLog) (ls : List EventLabel),
      eventLabelsLoop deps evs = .ok ls →
      ls = evs.filterMap (fun ev =>
        match eventRecordOutcome deps ev with
        | .ok o => o
        | .error _ => none) ∧
      ∀ ev ∈ evs, ∃ o, eventRecordOutcome deps ev = .ok o := by
  intro evs
  induction evs with
  | nil =>
    intro ls h
    simp only [eventLabelsLoop] at h
    cases h
    exact ⟨rfl, by simp⟩
  | cons ev rest ih =>
    intro ls h
    cases htop : ev.topics with
    | nil =>
      simp only [eventLabelsLoop, htop] at h
      obtain ⟨h1, h2⟩ := ih ls h
      refine ⟨?_, ?_⟩
      · rw [List.filterMap_cons]
        simp only [eventRecordOutcome, htop]
        exact h1
      · intro x hx
        rcases List.mem_cons.mp hx with rfl | hx
        · exact ⟨none, by simp [eventRecordOutcome, htop]⟩
        · exact h2 x hx
    | cons t0 ts =>
      simp only [eventLabelsLoop, htop] at h
      cases habi : deps.abiJSON (deps.abiMap ev.address t0 "abi") with
      | error e => rw [habi, except_bind_error] at h; cases h
      | ok ca =>
        rw [habi, except_bind_ok] at h
        cases hargs : deps.decodeLogArgs ca (t0 :: ts) ev.data with
        | error e => rw [hargs, except_bind_error] at h; cases h
        | ok da =>
          rw [hargs, except_bind_ok] at h
          cases hmar : deps.jsonMarshal da with
          | error e => rw [hmar, except_bind_error] at h; cases h
          | ok ld =>
            rw [hmar, except_bind_ok] at h
            cases hrest : eventLabelsLoop deps rest with
            | error e => rw [hrest, except_bind_error] at h; cases h
            | ok rs =>
              rw [hrest, except_bind_ok] at h
              have hout : eventRecordOutcome deps ev =
                  .ok (some (mkEventLabel deps ev t0 ld)) := by
                simp only [eventRecordOutcome, htop, habi, except_bind_ok,
                  hargs, hmar]
                rfl
              obtain ⟨h1, h2⟩ := ih rs hrest
              cases h
              refine ⟨?_, ?_⟩
              · rw [List.filterMap_cons]
                simp only [hout]
                rw [h1]
              · intro x hx
                rcases List.mem_cons.mp hx with rfl | hx
                · exact ⟨some (mkEventLabel deps x t0 ld), hout⟩
                · exact h2 x hx

/-- C7: in `DecodeProtoEventsToLabels`, a base64/protobuf failure aborts
the whole call with that error; a record with no topics is skipped; on
success the emitted labels are exactly the per-record labels of the
non-skipped records in input order; and an ABI-selection, ABI-decode or
JSON failure on any single record (all earlier records fine) makes the
whole call return that error, with no labels. -/
theorem C7_event_label_decoder {B A J : Type} (deps : EventDecodeDeps B A J) :
    (∀ events e, decodeProtoEventLogs deps.b64 deps.unmarshal events = .error e →
       decodeProtoEventsToLabels deps events = .error e) ∧
    (∀ ev, ev.topics = [] → eventRecordOutcome deps ev = .ok none) ∧
    (∀ evs ls, eventLabelsLoop deps evs = .ok ls →
       ls = evs.filterMap (fun ev =>
         match eventRecordOutcome deps ev with
         | .ok o => o
         | .error _ => none) ∧
       ∀ ev ∈ evs, ∃ o, eventRecordOutcome deps ev = .ok o) ∧
    (∀ evs1 ev evs2 e, (∀ x ∈ evs1, ∃ o, eventRecordOutcome deps x = .ok o) →
       eventRecordOutcome deps ev = .error e →
       eventLabelsLoop deps (evs1 ++ ev :: evs2) = .error e) := by
  refine ⟨?_, ?_, eventLabelsLoop_ok_char deps, ?_⟩
  · intro events e h
    simp only [decodeProtoEventsToLabels, h, except_bind_error]
  · intro ev h
    simp only [eventRecordOutcome, h]
  · intro evs1
    induction evs1 with
    | nil =>
      intro ev evs2 e _ hout
      cases htop : ev.topics with
      | nil =>
        simp only [eventRecordOutcome, htop] at hout
        cases hout
      | cons t0 ts =>
        simp only [eventRecordOutcome, htop] at hout
        simp only [List.nil_append, eventLabelsLoop, htop]
        cases habi : deps.abiJSON (deps.abiMap ev.address t0 "abi") with
        | error e1 =>
          rw [habi, except_bind_error] at hout
          cases hout
          simp only [except_bind_error]
        | ok ca =>
          rw [habi, except_bind_ok] at hout
          simp only [except_bind_ok]
          cases hargs : deps.decodeLogArgs ca (t0 :: ts) ev.data with
          | error e2 =>
            rw [hargs, except_bind_error] at hout
            cases hout
            simp only [except_bind_error]
          | ok da =>
            rw [hargs, except_bind_ok] at hout
            simp only [except_bind_ok]
            cases hmar : deps.jsonMarshal da with
            | error e3 =>
              rw [hmar, except_bind_error] at hout
              cases hout
              simp only [except_bind_error]
            | ok ld =>
              rw [hmar, except_bind_ok] at hout
              cases hout
    | cons x rest1 ih =>
      intro ev evs2 e hall hout
      obtain ⟨o, hxo⟩ := hall x (List.mem_cons_self x rest1)
      have hall2 : ∀ y ∈ rest1, ∃ o, eventRecordOutcome deps y = .ok o :=
        fun y hy => hall y (List.mem_cons_of_mem x hy)
      cases htop : x.topics with
      | nil =>
        simp only [List.cons_append, eventLabelsLoop, htop]
        exact ih ev evs2 e hall2 hout
      | cons t0 ts =>
        simp only [eventRecordOutcome, htop] at hxo
        simp only [List.cons_append, eventLabelsLoop, htop]
        cases habi : deps.abiJSON (deps.abiMap x.address t0 "abi") with
        | error e1 => rw [habi, except_bind_error] at hxo; cases hxo
        | ok ca =>
          rw [habi, except_bind_ok] at hxo
          simp only [except_bind_ok]
          cases hargs : deps.decodeLogArgs ca (t0 :: ts) x.data with
          | error e2 => rw [hargs, except_bind_error] at hxo; cases hxo
          | ok da =>
            rw [hargs, except_bind_ok] at hxo
            simp only [except_bind_ok]
            cases hmar : deps.jsonMarshal da with
            | error e3 => rw [hmar, except_bind_error] at hxo; cases hxo
            | ok ld =>
              rw [hmar, except_bind_ok] at hxo
              simp only [except_bind_ok, List.append_eq]
              rw [ih ev evs2 e hall2 hout, except_bind_error]

/-- Witness for C7: an ABI-parse failure on the only record (no earlier
records) aborts the batch with that error. -/
theorem C7_event_label_decoder_witness :
    eventLabelsLoop
      { b64 := fun _ => Except.ok 0
        unmarshal := fun _ => Except.error "unused"
        abiJSON := fun _ => Except.error "bad abi"
        decodeLogArgs := fun _ _ _ => Except.ok 0
        jsonMarshal := fun _ => Except.ok ""
        abiMap := fun _ _ _ => ""
        blocksCache := fun _ => none
        label := "seer" : EventDecodeDeps Nat Nat Nat }
      ([] ++ { address := "a", topics := ["t0"], data := "", blockNumber := 0,
               transactionHash := "", logIndex := 0, blockHash := "",
               removed := false } :: []) = Except.error "bad abi" :=
  (C7_event_label_decoder _).2.2.2 [] _ [] "bad abi"
    (fun x hx => absurd hx (List.not_mem_nil x)) rfl

theorem txLabelsLoop_no_panic {B A J : Type} (deps : TxDecodeDeps B A J) :
    ∀ txs : List XaiSepoliaTransaction,
      (∀ tx ∈ txs, 10 ≤ tx.input.length) →
      txLabelsLoop deps txs ≠ TxDecodeOutcome.panicked := by
  intro txs
  induction txs with
  | nil => intro _ h; cases h
  | cons tx rest ih =>
    intro hlen hpan
    have h10 : goSliceTo tx.input 10 =
        some (String.mk (tx.input.data.take 10)) := by
      unfold goSliceTo
      rw [if_pos (hlen tx (List.mem_cons_self tx rest))]
    have h2 : goSliceFrom tx.input 2 =
        some (String.mk (tx.input.data.drop 2)) := by
      unfold goSliceFrom
      rw [if_pos (by have := hlen tx (List.mem_cons_self tx rest); omega)]
    have ihrest := ih (fun t ht => hlen t (List.mem_cons_of_mem tx ht))
    simp only [txLabelsLoop, h10, h2] at hpan
    cases habi : deps.abiJSON (deps.abiMap tx.toAddress
        (String.mk (tx.input.data.take 10)) "abi") with
    | error e => simp only [habi] at hpan; cases hpan
    | ok ca =>
      simp only [habi] at hpan
      cases hhex : deps.hexDecode (String.mk (tx.input.data.drop 2)) with
      | error e => simp only [hhex] at hpan; cases hpan
      | ok bytes =>
        simp only [hhex] at hpan
        cases hdec : deps.decodeTxInput ca bytes with
        | error e => simp only [hdec] at hpan; cases hpan
        | ok da =>
          simp only [hdec] at hpan
          cases hmar : deps.jsonMarshal da with
          | error e => simp only [hmar] at hpan; cases hpan
          | ok ld =>
            simp only [hmar] at hpan
            cases hrest : txLabelsLoop deps rest with
            | panicked => exact ihrest hrest
            | failed e => simp only [hrest] at hpan; cases hpan
            | ok ls => simp only [hrest] at hpan; cases hpan

/-- C9: `DecodeProtoTransactionsToLabels` evaluates
`transaction.Input[:10]` with no length guard, so it cannot panic only
under the precondition that every decoded record's input has length at
least 10; and a batch whose record decodes to the bare input `"0x"`
makes it panic instead of returning an error. -/
theorem C9_tx_decoder_input_guard {B A J : Type} (deps : TxDecodeDeps B A J) :
    (∀ txs decoded,
       decodeProtoTransactions deps.b64 deps.unmarshal txs = .ok decoded →
       (∀ tx ∈ decoded, 10 ≤ tx.input.length) →
       decodeProtoTransactionsToLabels deps txs ≠ TxDecodeOutcome.panicked) ∧
    decodeProtoTransactionsToLabels (constTxDeps "0x") ["r"] =
      TxDecodeOutcome.panicked := by
  constructor
  · intro txs decoded hdec hlen
    simp only [decodeProtoTransactionsToLabels, hdec]
    exact txLabelsLoop_no_panic deps decoded hlen
  · rfl

/-- Witness for C9: with every decoded input of length at least 10 the
decoder cannot panic. -/
theorem C9_tx_decoder_input_guard_witness :
    decodeProtoTransactionsToLabels (constTxDeps "0xa9059cbb00") ["r"] ≠
      TxDecodeOutcome.panicked :=
  (C9_tx_decoder_input_guard (constTxDeps "0xa9059cbb00")).1 ["r"]
    [sampleTx "0xa9059cbb00"] rfl (by decide)

/-! ### Claims C8 and C10: the concurrent block fetcher -/

theorem list_get_set_decomp {α : Type} :
    ∀ (l : List α) (i : Nat) (c : α), l.get? i = some c →
      ∃ l1 l2, l = l1 ++ c :: l2 ∧ l1.length = i ∧
        ∀ c', l.set i c' = l1 ++ c' :: l2 := by
  intro l
  induction l with
  | nil => intro i c h; cases h
  | cons x xs ih =>
    intro i c h
    cases i with
    | zero =>
      cases h
      exact ⟨[], xs, rfl, rfl, fun c' => rfl⟩
    | succ j =>
      obtain ⟨l1, l2, he, hlen, hset⟩ := ih j c h
      refine ⟨x :: l1, l2, ?_, ?_, ?_⟩
      · rw [List.cons_append, ← he]
      · simp [hlen]
      · intro c'
        rw [List.cons_append, ← hset c']
        rfl

theorem countP_middle {α : Type} (p : α → Bool) (l1 l2 : List α) (c : α) :
    (l1 ++ c :: l2).countP p =
      l1.countP p + l2.countP p + (if p c then 1 else 0) := by
  rw [List.countP_append, List.countP_cons]
  omega

theorem asyncStep_inv {β : Type} (oracle : Int → Except String β) (N : Nat)
    (s s' : AsyncState β) (i : Nat)
    (hstep : asyncStep oracle N s i = some s') (hinv : asyncInv N s) :
    asyncInv N s' := by
  obtain ⟨h1, h2, h3⟩ := hinv
  unfold asyncStep at hstep
  cases hget : s.cells.get? i with
  | none =>
    simp only [hget] at hstep
    cases hstep
  | some c =>
    obtain ⟨t, ph⟩ := c
    simp only [hget] at hstep
    obtain ⟨l1, l2, he, hlen, hset⟩ := list_get_set_decomp s.cells i (t, ph) hget
    cases ph with
    | idle =>
      have hfs : inFlight s =
          l1.countP (fun c => c.2 == TaskPhase.calling) +
          l2.countP (fun c => c.2 == TaskPhase.calling) := by
        rw [inFlight, he, countP_middle]
        rfl
      by_cases hperm : s.permits < N
      · rw [if_pos hperm] at hstep
        cases hstep
        have hfs' : inFlight
            { s with cells := s.cells.set i (t, TaskPhase.calling),
                     permits := s.permits + 1 } =
            l1.countP (fun c => c.2 == TaskPhase.calling) +
            l2.countP (fun c => c.2 == TaskPhase.calling) + 1 := by
          rw [inFlight]
          show (s.cells.set i (t, TaskPhase.calling)).countP _ = _
          rw [hset, countP_middle]
          rfl
        refine ⟨?_, ?_, ?_⟩
        · show inFlight _ + s.errLog.length = s.permits + 1
          rw [hfs']
          omega
        · show s.permits + 1 ≤ N
          omega
        · exact h3
      · rw [if_neg hperm] at hstep
        cases hstep
    | calling =>
      have hfs : inFlight s =
          l1.countP (fun c => c.2 == TaskPhase.calling) +
          l2.countP (fun c => c.2 == TaskPhase.calling) + 1 := by
        rw [inFlight, he, countP_middle]
        rfl
      have hfsdone : (s.cells.set i (t, TaskPhase.done)).countP
          (fun c => c.2 == TaskPhase.calling) =
          l1.countP (fun c => c.2 == TaskPhase.calling) +
          l2.countP (fun c => c.2 == TaskPhase.calling) := by
        rw [hset, countP_middle]
        rfl
      cases horc : oracle t with
      | ok blk =>
        simp only [horc] at hstep
        cases hstep
        refine ⟨?_, ?_, ?_⟩
        · show inFlight _ + s.errLog.length = s.permits - 1
          rw [inFlight]
          show (s.cells.set i (t, TaskPhase.done)).countP _ + _ = _
          rw [hfsdone]
          omega
        · show s.permits - 1 ≤ N
          omega
        · exact h3
      | error e =>
        simp only [horc] at hstep
        cases hstep
        refine ⟨?_, ?_, ?_⟩
        · show inFlight _ + (s.errLog ++ [e]).length = s.permits
          rw [inFlight]
          show (s.cells.set i (t, TaskPhase.done)).countP _ + _ = _
          rw [hfsdone, List.length_append, List.length_singleton]
          omega
        · exact h2
        · show (match s.errSlot with
                | some e0 => some e0
                | none => some e) = (s.errLog ++ [e]).head?
          cases herr : s.errLog with
          | nil =>
            rw [herr] at h3
            simp only [List.head?] at h3
            rw [h3]
            rfl
          | cons x xs =>
            rw [herr] at h3
            simp only [List.head?] at h3
            rw [h3]
            rfl
    | done =>
      simp only at hstep
      cases hstep

theorem asyncRun_inv {β : Type} (oracle : Int → Except String β) (N : Nat) :
    ∀ (choices : List Nat) (s s' : AsyncState β),
      asyncRun oracle N choices s = some s' → asyncInv N s → asyncInv N s' := by
  intro choices
  induction choices with
  | nil =>
    intro s s' h hinv
    cases h
    exact hinv
  | cons i rest ih =>
    intro s s' h hinv
    simp only [asyncRun] at h
    cases hstep : asyncStep oracle N s i with
    | none => rw [hstep] at h; cases h
    | some s2 =>
      rw [hstep] at h
      exact ih s2 s' h (asyncStep_inv oracle N s s2 i hstep hinv)

theorem asyncInit_inv {β : Type} (N : Nat) (tasks : List Int) :
    asyncInv (β := β) N (asyncInit tasks) := by
  have h0 : ∀ l : List Int,
      (l.map (fun t => (t, TaskPhase.idle))).countP
        (fun c => c.2 == TaskPhase.calling) = 0 := by
    intro l
    induction l with
    | nil => rfl
    | cons x xs ih =>
      rw [List.map_cons, List.countP_cons, ih]
      rfl
  refine ⟨?_, by simp [asyncInit], by simp [asyncInit]⟩
  have h1 : inFlight (asyncInit (β := β) tasks) = 0 := by
    rw [inFlight]
    exact h0 tasks
  rw [h1]
  simp [asyncInit]

/-- C8: along any schedule of `FetchBlocksInRangeAsync`, the single-slot
error channel holds the first failure in serialization order (later
failures are dropped by the non-blocking send); once every goroutine has
settled, a captured failure makes the call return that error — the
accumulated blocks are discarded — and with no failure it returns the
accumulated blocks. -/
theorem C8_async_first_error {β : Type} (oracle : Int → Except String β)
    (a b : Int) (N : Nat) (choices : List Nat) (s : AsyncState β)
    (hrun : asyncRun oracle N choices (asyncInit (blockSeq a b)) = some s) :
    s.errSlot = s.errLog.head? ∧
    (allDone s → ∀ e, s.errLog.head? = some e → asyncResult s = .error e) ∧
    (allDone s → s.errLog = [] → asyncResult s = .ok s.blocks) := by
  obtain ⟨h1, h2, h3⟩ :=
    asyncRun_inv oracle N choices _ s hrun (asyncInit_inv N (blockSeq a b))
  refine ⟨h3, ?_, ?_⟩
  · intro _ e he
    simp only [asyncResult, h3, he]
  · intro _ hnil
    simp only [asyncResult, h3, hnil, List.head?]

/-- Witness for C8: two blocks, `maxRequests = 2`, block 0 fails and
block 1 succeeds; the failure is captured and is the head of the log. -/
theorem C8_async_first_error_witness :
    ({ cells := [((0 : Int), TaskPhase.done), (1, TaskPhase.done)], permits := 1,
       errSlot := some "boom", errLog := ["boom"],
       blocks := [(1 : Int)] } : AsyncState Int).errSlot =
      (["boom"] : List String).head? ∧
    (allDone ({ cells := [((0 : Int), TaskPhase.done), (1, TaskPhase.done)],
                permits := 1, errSlot := some "boom", errLog := ["boom"],
                blocks := [(1 : Int)] } : AsyncState Int) →
      ∀ e, (["boom"] : List String).head? = some e →
        asyncResult ({ cells := [((0 : Int), TaskPhase.done), (1, TaskPhase.done)],
                       permits := 1, errSlot := some "boom", errLog := ["boom"],
                       blocks := [(1 : Int)] } : AsyncState Int) = .error e) ∧
    (allDone ({ cells := [((0 : Int), TaskPhase.done), (1, TaskPhase.done)],
                permits := 1, errSlot := some "boom", errLog := ["boom"],
                blocks := [(1 : Int)] } : AsyncState Int) →
      (["boom"] : List String) = [] →
      asyncResult ({ cells := [((0 : Int), TaskPhase.done), (1, TaskPhase.done)],
                     permits := 1, errSlot := some "boom", errLog := ["boom"],
                     blocks := [(1 : Int)] } : AsyncState Int) =
        .ok [(1 : Int)]) :=
  C8_async_first_error
    (fun t => if t = 0 then Except.error "boom" else Except.ok t) 0 1 2
    [0, 0, 1, 1] _ (by decide)

theorem asyncStep_okInv {β : Type} (oracle : Int → Except String β) (N : Nat)
    (fetch : Int → β) (tasks : List Int) (s s' : AsyncState β) (i : Nat)
    (hok : ∀ t ∈ tasks, oracle t = .ok (fetch t))
    (hstep : asyncStep oracle N s i = some s')
    (hfst : s.cells.map Prod.fst = tasks)
    (hperm : s.blocks.Perm (donePayload fetch s)) :
    s'.cells.map Prod.fst = tasks ∧ s'.blocks.Perm (donePayload fetch s') := by
  unfold asyncStep at hstep
  cases hget : s.cells.get? i with
  | none =>
    simp only [hget] at hstep
    cases hstep
  | some c =>
    obtain ⟨t, ph⟩ := c
    simp only [hget] at hstep
    obtain ⟨l1, l2, he, hlen, hset⟩ := list_get_set_decomp s.cells i (t, ph) hget
    have ht : t ∈ tasks := by
      rw [← hfst, he, List.map_append, List.map_cons]
      exact List.mem_append_right _ (List.mem_cons_self _ _)
    have hfst2 : ∀ ph', (s.cells.set i (t, ph')).map Prod.fst = tasks := by
      intro ph'
      rw [hset, ← hfst, he]
      simp [List.map_append]
    cases ph with
    | idle =>
      by_cases hp : s.permits < N
      · rw [if_pos hp] at hstep
        cases hstep
        refine ⟨hfst2 TaskPhase.calling, ?_⟩
        have hd : donePayload fetch
            { s with cells := s.cells.set i (t, TaskPhase.calling),
                     permits := s.permits + 1 } = donePayload fetch s := by
          rw [donePayload]
          show (s.cells.set i (t, TaskPhase.calling)).filterMap _ = _
          rw [hset, donePayload, he]
          simp only [List.filterMap_append, List.filterMap_cons]
          rfl
        rw [hd]
        exact hperm
      · rw [if_neg hp] at hstep
        cases hstep
    | calling =>
      rw [hok t ht] at hstep
      cases hstep
      refine ⟨hfst2 TaskPhase.done, ?_⟩
      have hds : donePayload fetch s =
          l1.filterMap (fun c =>
            if c.2 == TaskPhase.done then some (fetch c.1) else none) ++
          l2.filterMap (fun c =>
            if c.2 == TaskPhase.done then some (fetch c.1) else none) := by
        rw [donePayload, he]
        simp only [List.filterMap_append, List.filterMap_cons]
        rfl
      have hds' : donePayload fetch
          { s with cells := s.cells.set i (t, TaskPhase.done),
                   blocks := s.blocks ++ [fetch t],
                   permits := s.permits - 1 } =
          l1.filterMap (fun c =>
            if c.2 == TaskPhase.done then some (fetch c.1) else none) ++
          fetch t ::
          l2.filterMap (fun c =>
            if c.2 == TaskPhase.done then some (fetch c.1) else none) := by
        rw [donePayload]
        show (s.cells.set i (t, TaskPhase.done)).filterMap _ = _
        rw [hset]
        simp only [List.filterMap_append, List.filterMap_cons]
        rfl
      rw [hds']
      show (s.blocks ++ [fetch t]).Perm _
      have hstep1 : (s.blocks ++ [fetch t]).Perm
          (donePayload fetch s ++ [fetch t]) := hperm.append_right _
      rw [hds] at hstep1
      refine hstep1.trans ?_
      rw [List.append_assoc]
      exact List.Perm.append_left _ (List.perm_append_singleton (fetch t) _)
    | done =>
      simp only at hstep
      cases hstep

theorem asyncRun_okInv {β : Type} (oracle : Int → Except String β) (N : Nat)
    (fetch : Int → β) (tasks : List Int)
    (hok : ∀ t ∈ tasks, oracle t = .ok (fetch t)) :
    ∀ (choices : List Nat) (s s' : AsyncState β),
      asyncRun oracle N choices s = some s' →
      s.cells.map Prod.fst = tasks →
      s.blocks.Perm (donePayload fetch s) →
      s'.cells.map Prod.fst = tasks ∧ s'.blocks.Perm (donePayload fetch s') := by
  intro choices
  induction choices with
  | nil =>
    intro s s' h hfst hperm
    cases h
    exact ⟨hfst, hperm⟩
  | cons i rest ih =>
    intro s s' h hfst hperm
    simp only [asyncRun] at h
    cases hstep : asyncStep oracle N s i with
    | none => rw [hstep] at h; cases h
    | some s2 =>
      rw [hstep] at h
      obtain ⟨hfst2, hperm2⟩ :=
        asyncStep_okInv oracle N fetch tasks s s2 i hok hstep hfst hperm
      exact ih s2 s' h hfst2 hperm2

theorem donePayload_of_allDone {β : Type} (fetch : Int → β) :
    ∀ l : List (Int × TaskPhase), (∀ c ∈ l, c.2 = TaskPhase.done) →
      l.filterMap (fun c =>
        if c.2 == TaskPhase.done then some (fetch c.1) else none) =
      l.map (fun c => fetch c.1) := by
  intro l
  induction l with
  | nil => intro _; rfl
  | cons c cs ih =>
    intro h
    rw [List.filterMap_cons, List.map_cons]
    rw [h c (List.mem_cons_self c cs)]
    simp only [ih (fun x hx => h x (List.mem_cons_of_mem c hx))]
    rfl

/-- C10: in `FetchBlocksInRangeAsync` with `max_concurrent = N`, every
reachable state of any schedule has at most `N` transport calls in
flight — whatever the transport does, including failures (whose leaked
permits only lower the number of calls that can start); and on a
schedule where every goroutine settles with no call failing, the
returned blocks are a permutation of (exactly) the blocks of the range
`[from, to]`, one per block number. -/
theorem C10_async_bounded_and_complete {β : Type} (oracle : Int → Except String β)
    (fetch : Int → β) (a b : Int) (N : Nat) (_hN : 1 ≤ N) :
    (∀ (choices : List Nat) (s : AsyncState β),
       asyncRun oracle N choices (asyncInit (blockSeq a b)) = some s →
       inFlight s ≤ N) ∧
    ((∀ t ∈ blockSeq a b, oracle t = .ok (fetch t)) →
     ∀ (choices : List Nat) (s : AsyncState β),
       asyncRun oracle N choices (asyncInit (blockSeq a b)) = some s →
       allDone s → s.blocks.Perm ((blockSeq a b).map fetch)) := by
  constructor
  · intro choices s hrun
    obtain ⟨h1, h2, _⟩ :=
      asyncRun_inv oracle N choices _ s hrun (asyncInit_inv N (blockSeq a b))
    omega
  · intro hok choices s hrun hdone
    have hfst0 : (asyncInit (β := β) (blockSeq a b)).cells.map Prod.fst =
        blockSeq a b := by
      rw [asyncInit]
      show (List.map (fun t => (t, TaskPhase.idle)) (blockSeq a b)).map
        Prod.fst = blockSeq a b
      rw [List.map_map]
      exact List.map_id'' (fun x => rfl) _
    have hperm0 : (asyncInit (β := β) (blockSeq a b)).blocks.Perm
        (donePayload fetch (asyncInit (blockSeq a b))) := by
      rw [asyncInit, donePayload]
      simp [List.filterMap_map, Function.comp]
    obtain ⟨hfst, hperm⟩ := asyncRun_okInv oracle N fetch (blockSeq a b) hok
      choices _ s hrun hfst0 hperm0
    rw [donePayload, donePayload_of_allDone fetch s.cells hdone] at hperm
    have hmap : s.cells.map (fun c => fetch c.1) = (blockSeq a b).map fetch := by
      rw [← hfst, List.map_map]
      rfl
    rw [hmap] at hperm
    exact hperm

/-- Witness for C10: range `[0, 2]`, `N = 2`, a transport returning the
block number itself (and failing on nothing, so the multiset conjunct's
premise is dischargeable too). -/
theorem C10_async_bounded_and_complete_witness :
    (∀ (choices : List Nat) (s : AsyncState Int),
       asyncRun (fun t => Except.ok t) 2 choices
         (asyncInit (blockSeq 0 2)) = some s → inFlight s ≤ 2) ∧
    ((∀ t ∈ blockSeq 0 2, (fun t : Int => Except.ok (ε := String) t) t =
        Except.ok ((fun t : Int => t) t)) →
     ∀ (choices : List Nat) (s : AsyncState Int),
       asyncRun (fun t => Except.ok t) 2 choices
         (asyncInit (blockSeq 0 2)) = some s →
       allDone s → s.blocks.Perm ((blockSeq 0 2).map (fun t => t))) :=
  C10_async_bounded_and_complete (fun t => Except.ok t) (fun t => t) 0 2 2
    (by decide)

end Seer
